import Mathlib

/-!
Verification of the price-extraction and product-normalization pipeline of
`price_monitor.py` (class `PriceMonitor`).

Shallow embedding conventions:
* Prices are `ℚ` (the program manipulates small decimal amounts such as
  `129.99`; the two-decimal parser output is exact in `ℚ`).
* An HTML element is its tag name, the value of its `class` attribute
  (`""` when absent) and its visible text (the result of
  `get_text(strip=True)`).
* A listing fragment is the list of its descendant elements in document
  order, which is what `find` / `find_all` traverse.
* `Optional[float]` becomes `Option ℚ`, Python `None` becomes `none`.
-/

/-- ASCII decimal digit test, the character class `\d` of the pattern in
`extract_price` restricted to the ASCII inputs the scraper handles. -/
def isDigitChar (c : Char) : Bool :=
  c == '0' || c == '1' || c == '2' || c == '3' || c == '4' ||
  c == '5' || c == '6' || c == '7' || c == '8' || c == '9'

/-- ASCII whitespace, the character class `\s` of the pattern in
`extract_price` restricted to ASCII. -/
def isSpaceChar (c : Char) : Bool :=
  c == ' ' || c == '\t' || c == '\n' || c == '\r' || c == '\x0b' || c == '\x0c'

/-- Numeric value of a digit character (`0` on non-digits, which the
matcher never feeds it). -/
def digitVal (c : Char) : Nat :=
  if c == '1' then 1 else if c == '2' then 2 else if c == '3' then 3 else
  if c == '4' then 4 else if c == '5' then 5 else if c == '6' then 6 else
  if c == '7' then 7 else if c == '8' then 8 else if c == '9' then 9 else 0

/-- Value of a digit string, as `float(...)` reads the integer part of the
matched group. -/
def digitsToNat (ds : List Char) : Nat :=
  ds.foldl (fun n c => 10 * n + digitVal c) 0

/-- The piece `[\$]?` of the pattern: optionally consume a leading dollar sign. -/
def matchDollar : List Char → List Char
  | '$' :: rest => rest
  | cs => cs

/-- Greedily take at most `n` characters satisfying `p`; returns the taken
run and the remainder.  Models the greedy `\d{1,3}` (with `n = 3`). -/
def takeUpTo (n : Nat) (p : Char → Bool) : List Char → List Char × List Char
  | [] => ([], [])
  | c :: cs =>
    if 0 < n then
      if p c then
        (c :: (takeUpTo (n - 1) p cs).1, (takeUpTo (n - 1) p cs).2)
      else ([], c :: cs)
    else ([], c :: cs)

/-- Greedy `(?:,\d{3})*`: consume comma-separated three-digit groups,
returning the digits of the groups (the commas of the matched group are
dropped again by `group(1).replace(',', '')`) and the remainder. -/
def commaGroups : List Char → List Char × List Char
  | c1 :: c2 :: c3 :: c4 :: rest =>
    if c1 == ',' && isDigitChar c2 && isDigitChar c3 && isDigitChar c4 then
      ((c2 :: c3 :: c4 :: (commaGroups rest).1), (commaGroups rest).2)
    else ([], c1 :: c2 :: c3 :: c4 :: rest)
  | cs => ([], cs)

/-- Greedy `(?:\.\d{2})?`: a two-digit decimal fraction, returned as its
value in cents (`0`–`99`), or `none` when the optional part matches empty. -/
def fracPart : List Char → Option ℕ
  | '.' :: d1 :: d2 :: _ =>
    if isDigitChar d1 && isDigitChar d2 then
      some (10 * digitVal d1 + digitVal d2)
    else none
  | _ => none

/-- Attempt the pattern `[\$]?\s*(\d{1,3}(?:,\d{3})*(?:\.\d{2})?)` at the
head of `cs` and return the numeric value of group 1, i.e.
`float(group)`: a matched group `ddd.xy` denotes `(100*ddd + xy) / 100`,
written with `mkRat` so that the definition evaluates.  For this pattern
greedy matching without backtracking agrees with Python `re` semantics:
everything after the mandatory digit run is optional, and `\$`, `\s`, `\d`
are pairwise disjoint character classes. -/
def matchNumAt (cs : List Char) : Option ℚ :=
  if (takeUpTo 3 isDigitChar ((matchDollar cs).dropWhile isSpaceChar)).1 = [] then
    none
  else
    match fracPart (commaGroups
        (takeUpTo 3 isDigitChar ((matchDollar cs).dropWhile isSpaceChar)).2).2 with
    | some f =>
      some (mkRat (100 * digitsToNat ((takeUpTo 3 isDigitChar ((matchDollar cs).dropWhile isSpaceChar)).1 ++
        (commaGroups (takeUpTo 3 isDigitChar ((matchDollar cs).dropWhile isSpaceChar)).2).1) + f) 100)
    | none =>
      some ((digitsToNat ((takeUpTo 3 isDigitChar ((matchDollar cs).dropWhile isSpaceChar)).1 ++
        (commaGroups (takeUpTo 3 isDigitChar ((matchDollar cs).dropWhile isSpaceChar)).2).1) : ℕ) : ℚ)

/-- Model of `re.search`: leftmost position at which the pattern matches. -/
def searchPrice : List Char → Option ℚ
  | [] => none
  | c :: rest =>
    match matchNumAt (c :: rest) with
    | some v => some v
    | none => searchPrice rest

/-- Model of `price_text.replace(',', '')`: remove every comma. -/
def stripCommas (s : String) : List Char :=
  s.data.filter (fun c => !(c == ','))

/-- Model of `PriceMonitor.extract_price` (price_monitor.py lines 81-90): `None` for
empty text, otherwise the first match of
`[\$]?\s*(\d{1,3}(?:,\d{3})*(?:\.\d{2})?)` in the comma-stripped text,
read as a decimal number. -/
def extract_price (s : String) : Option ℚ :=
  if s = "" then none
  else searchPrice (stripCommas s)

example : extract_price "$129.99" = some (mkRat 12999 100) := by decide
example : mkRat 12999 100 = (129.99 : ℚ) := by norm_num [Rat.mkRat_eq_div]
example : extract_price "Call for price" = none := by decide
example : extract_price "" = none := by decide

/-- An HTML element as the extractor sees it: tag name, the `class`
attribute (`""` when absent) and its visible text. -/
structure Element where
  tag : String
  className : String
  text : String
deriving DecidableEq

/-- A listing fragment: its descendant elements in document order (the
order `find` / `find_all` traverse). -/
structure Fragment where
  elems : List Element
deriving DecidableEq

/-- One page, reduced to the candidate listing fragments selected by
`soup.find_all(['div', 'article'], class_=re.compile(r'product|item|card', re.I))`. -/
structure Page where
  fragments : List Fragment
deriving DecidableEq

/-- The record appended to `self.products`: keys `Product`, `Brand`,
`Category`, `MSRP`, `Sale Price`. -/
structure ProductRecord where
  product : String
  brand : String
  category : String
  msrp : Option ℚ
  salePrice : Option ℚ
deriving DecidableEq

/-- Whether `needle` starts `hay`. -/
def leadsWith : List Char → List Char → Bool
  | [], _ => true
  | _ :: _, [] => false
  | a :: as, b :: bs => a == b && leadsWith as bs

/-- Whether `needle` occurs as a contiguous substring of `hay`. -/
def hasSub (needle : List Char) : List Char → Bool
  | [] => leadsWith needle []
  | c :: rest => leadsWith needle (c :: rest) || hasSub needle rest

/-- Case-insensitive `re.search` of an alternation of literal words
(`re.compile(r'w1|w2|...', re.I)`) against a class attribute: does any of
the lowercase words occur in the lowercased attribute value? -/
def classMatches (pats : List String) (cls : String) : Bool :=
  pats.any (fun p => hasSub p.data (cls.data.map Char.toLower))

/-- The first `find` of name resolution:
`product.find(['h2', 'h3', 'h4', 'a'], class_=re.compile(r'title|name|product', re.I))`. -/
def isNameElem (e : Element) : Bool :=
  (e.tag == "h2" || e.tag == "h3" || e.tag == "h4" || e.tag == "a") &&
    classMatches ["title", "name", "product"] e.className

/-- Name resolution (price_monitor.py lines 117-119): first element
matching the title/name/product pattern, falling back to the first link
(`product.find('a')`). -/
def findNameElem (frag : Fragment) : Option Element :=
  match frag.elems.find? isNameElem with
  | some e => some e
  | none => frag.elems.find? (fun e => e.tag == "a")

/-- The price-element filter:
`product.find_all(['span', 'div', 'p'], class_=re.compile(r'price', re.I))`. -/
def isPriceElem (e : Element) : Bool :=
  (e.tag == "span" || e.tag == "div" || e.tag == "p") &&
    classMatches ["price"] e.className

/-- Price collection (price_monitor.py lines 127-134): run each price
element's text through `extract_price` and append the result when it is
truthy (`if price:` — so `None` and `0.0` are both dropped). -/
def collectPrices (frag : Fragment) : List ℚ :=
  (frag.elems.filter isPriceElem).foldl
    (fun acc e =>
      match extract_price e.text with
      | some p => if p = 0 then acc else acc ++ [p]
      | none => acc) []

/-- Python `max(list)` on a nonempty list (`List.max?` is
`foldl max x xs`, exactly the same reduction). -/
def listMax (l : List ℚ) : Option ℚ := l.max?

/-- Python `min(list)` on a nonempty list. -/
def listMin (l : List ℚ) : Option ℚ := l.min?

/-- The body of the per-fragment `try` block (price_monitor.py lines
116-146): resolve a name (`continue` when none), collect prices, and when
the price list is nonempty append the record with `MSRP = max(prices)`
and `Sale Price = min(prices) if len(prices) > 1 else None`. -/
def extractFragment (brand category : String) (frag : Fragment) : Option ProductRecord :=
  match findNameElem frag with
  | none => none
  | some nameElem =>
    if (collectPrices frag).isEmpty then none
    else some ⟨nameElem.text, brand, category,
      listMax (collectPrices frag),
      if 1 < (collectPrices frag).length then listMin (collectPrices frag) else none⟩

/-- The per-page loop `for product in products[:10]` with its
`try ... except: continue`: each fragment is handed to a fragment
extractor that may raise (`Except.error`); an exception or an absent
result contributes nothing and the loop continues. -/
def processFragments (ext : Fragment → Except String (Option ProductRecord)) :
    List Fragment → List ProductRecord
  | [] => []
  | f :: fs =>
    (match ext f with
     | Except.ok (some r) => [r]
     | Except.ok none => []
     | Except.error _ => []) ++ processFragments ext fs

/-- Scraping one category page: the first 10 candidate fragments through
the per-fragment extractor. -/
def scrapePage (brand category : String) (page : Page) : List ProductRecord :=
  processFragments (fun f => Except.ok (extractFragment brand category f))
    (page.fragments.take 10)

/-- The per-retailer category loop (price_monitor.py lines 106-148):
`for category, url in category_urls.items(): soup = self.fetch_page(url);
if not soup: continue; ...`.  `fetch` is the Page Fetcher collaborator,
returning `none` on failure. -/
def scrapeRetailer (brand : String) (fetch : String → Option Page) :
    List (String × String) → List ProductRecord
  | [] => []
  | (cat, url) :: rest =>
    (match fetch url with
     | none => []
     | some page => scrapePage brand cat page) ++ scrapeRetailer brand fetch rest

/-- Bowflex category map (price_monitor.py lines 98-104). -/
def bowflexCategoryUrls : List (String × String) :=
  [("Treadmills", "https://www.bowflex.com/treadmills/"),
   ("Indoor Cycling Bikes", "https://www.bowflex.com/bikes/"),
   ("Home Gyms", "https://www.bowflex.com/strength/"),
   ("Adjustable Dumbbells", "https://www.bowflex.com/selecttech/"),
   ("Ellipticals and Max Trainer", "https://www.bowflex.com/max-trainer/")]

/-- Horizon Fitness category map (price_monitor.py lines 155-159). -/
def horizonCategoryUrls : List (String × String) :=
  [("Treadmills", "https://www.horizonfitness.com/treadmills"),
   ("Indoor Cycling Bikes", "https://www.horizonfitness.com/bikes"),
   ("Ellipticals and Max Trainer", "https://www.horizonfitness.com/ellipticals")]

/-- Schwinn category map (price_monitor.py lines 207-211). -/
def schwinnCategoryUrls : List (String × String) :=
  [("Treadmills", "https://www.schwinnfitness.com/treadmills"),
   ("Indoor Cycling Bikes", "https://www.schwinnfitness.com/bikes"),
   ("Ellipticals and Max Trainer", "https://www.schwinnfitness.com/ellipticals")]

/-- The scraping branch of `PriceMonitor.run` (price_monitor.py lines
271-274): the three retailer scrapers in sequence, appending to one
collection. -/
def run (fetch : String → Option Page) : List ProductRecord :=
  scrapeRetailer "Bowflex" fetch bowflexCategoryUrls ++
  scrapeRetailer "Horizon Fitness" fetch horizonCategoryUrls ++
  scrapeRetailer "Schwinn" fetch schwinnCategoryUrls

example :
    extractFragment "Bowflex" "Treadmills"
      ⟨[⟨"a", "product-title", "Model A"⟩,
        ⟨"span", "price", "$999.00"⟩, ⟨"span", "price", "$799.00"⟩]⟩ =
      some ⟨"Model A", "Bowflex", "Treadmills", some 999, some 799⟩ := by decide

example :
    extractFragment "Bowflex" "Treadmills" ⟨[⟨"a", "product-title", "Model B"⟩]⟩ =
      none := by decide

/-- JSON values, as far as the product files use them: the output file is
an array of flat objects with string and numeric-or-null fields. -/
inductive Json where
  | null : Json
  | str : String → Json
  | num : ℚ → Json
  | arr : List Json → Json
  | obj : List (String × Json) → Json

/-- An optional price as it is serialized: `None` becomes JSON `null`. -/
def optPriceToJson : Option ℚ → Json
  | none => Json.null
  | some p => Json.num p

/-- One product dict as built by the scraper and written by `json.dump`. -/
def recordToJson (r : ProductRecord) : Json :=
  Json.obj [("Product", Json.str r.product), ("Brand", Json.str r.brand),
    ("Category", Json.str r.category), ("MSRP", optPriceToJson r.msrp),
    ("Sale Price", optPriceToJson r.salePrice)]

/-- Model of `PriceMonitor.save_to_json` (price_monitor.py lines 314-318):
`json.dump(self.products, f)` — the collection as a JSON array. -/
def save_to_json (ps : List ProductRecord) : Json :=
  Json.arr (ps.map recordToJson)

/-- Key lookup in a JSON object, as `product['MSRP']` etc. read the loaded
dicts. -/
def jsonLookup (kvs : List (String × Json)) (k : String) : Option Json :=
  (kvs.find? (fun kv => kv.1 == k)).map (fun kv => kv.2)

/-- A numeric-or-null field back to an optional price. -/
def jsonToOptPrice : Json → Option (Option ℚ)
  | Json.null => some none
  | Json.num q => some (some q)
  | _ => none

/-- One loaded object back to the in-memory record shape the rest of the
program consumes (keys `Product`, `Brand`, `Category`, `MSRP`,
`Sale Price`). -/
def jsonToRecord (j : Json) : Option ProductRecord :=
  match j with
  | Json.obj kvs =>
    match jsonLookup kvs "Product", jsonLookup kvs "Brand", jsonLookup kvs "Category",
        jsonLookup kvs "MSRP", jsonLookup kvs "Sale Price" with
    | some (Json.str p), some (Json.str b), some (Json.str c), some mj, some sj =>
      match jsonToOptPrice mj, jsonToOptPrice sj with
      | some m, some s => some ⟨p, b, c, m, s⟩
      | _, _ => none
    | _, _, _, _, _ => none
  | _ => none

/-- Decode every element of the loaded array. -/
def decodeAll : List Json → Option (List ProductRecord)
  | [] => some []
  | j :: js =>
    match jsonToRecord j, decodeAll js with
    | some r, some rs => some (r :: rs)
    | _, _ => none

/-- Model of `PriceMonitor.load_from_file` (price_monitor.py lines 254-264) on an
already-parsed JSON value: `json.load` yields an array whose objects the
program treats as product records. -/
def load_from_file (j : Json) : Option (List ProductRecord) :=
  match j with
  | Json.arr js => decodeAll js
  | _ => none

/-! ### Bounds of the price matcher -/

lemma digitVal_le (c : Char) : digitVal c ≤ 9 := by
  unfold digitVal
  repeat' split
  all_goals omega

lemma foldl_digits_lt (ds : List Char) :
    ∀ n : ℕ, ds.foldl (fun n c => 10 * n + digitVal c) n < (n + 1) * 10 ^ ds.length := by
  induction ds with
  | nil => intro n; simp
  | cons c cs ih =>
    intro n
    rw [List.foldl_cons, List.length_cons]
    have h1 := ih (10 * n + digitVal c)
    have h2 : (10 * n + digitVal c + 1) * 10 ^ cs.length ≤ ((n + 1) * 10) * 10 ^ cs.length := by
      have := digitVal_le c
      exact Nat.mul_le_mul_right _ (by omega)
    have h3 : ((n + 1) * 10) * 10 ^ cs.length = (n + 1) * 10 ^ (cs.length + 1) := by ring
    omega

lemma digitsToNat_le_999 {ds : List Char} (h : ds.length ≤ 3) : digitsToNat ds ≤ 999 := by
  have h1 := foldl_digits_lt ds 0
  have h2 : 10 ^ ds.length ≤ 10 ^ 3 := Nat.pow_le_pow_right (by omega) h
  unfold digitsToNat
  simp only [Nat.one_mul] at h1
  omega

lemma takeUpTo_fst_length (n : ℕ) (p : Char → Bool) :
    ∀ cs : List Char, (takeUpTo n p cs).1.length ≤ n := by
  intro cs
  induction cs generalizing n with
  | nil => simp [takeUpTo]
  | cons c cs ih =>
    unfold takeUpTo
    split
    · split
      · have := ih (n - 1)
        simp only [List.length_cons]
        omega
      · simp
    · simp

lemma takeUpTo_snd_mem (n : ℕ) (p : Char → Bool) :
    ∀ cs : List Char, ∀ c ∈ (takeUpTo n p cs).2, c ∈ cs := by
  intro cs
  induction cs generalizing n with
  | nil => simp [takeUpTo]
  | cons x xs ih =>
    unfold takeUpTo
    split
    · split
      · intro c hc
        exact List.mem_cons_of_mem x (ih (n - 1) c hc)
      · intro c hc; exact hc
    · intro c hc; exact hc

lemma mem_matchDollar {c : Char} {cs : List Char} (h : c ∈ matchDollar cs) : c ∈ cs := by
  unfold matchDollar at h
  split at h
  · exact List.mem_cons_of_mem _ h
  · exact h

lemma mem_dropWhileSpaces {p : Char → Bool} {c : Char} :
    ∀ {cs : List Char}, c ∈ cs.dropWhile p → c ∈ cs := by
  intro cs
  induction cs with
  | nil => intro h; simp at h
  | cons x xs ih =>
    intro h
    rw [List.dropWhile_cons] at h
    by_cases hp : p x
    · simp only [hp, if_true] at h
      exact List.mem_cons_of_mem x (ih h)
    · simp only [hp, if_false] at h
      exact h

lemma commaGroups_no_comma {cs : List Char} (h : ∀ c ∈ cs, ¬ c = ',') :
    commaGroups cs = ([], cs) := by
  unfold commaGroups
  split
  · rename_i c1 c2 c3 c4 rest
    have h1 : ¬ c1 = ',' := h c1 (by simp)
    have h2 : (c1 == ',') = false := by simpa using h1
    simp [h2]
  · rfl

lemma fracPart_le {cs : List Char} {f : ℕ} (h : fracPart cs = some f) : f ≤ 99 := by
  unfold fracPart at h
  split at h
  · split at h
    · rename_i d1 d2 _ _
      have h1 := digitVal_le d1
      have h2 := digitVal_le d2
      simp only [Option.some.injEq] at h
      omega
    · cases h
  · cases h

lemma matchNumAt_bounds {cs : List Char} {v : ℚ}
    (hnc : ∀ c ∈ cs, ¬ c = ',') (h : matchNumAt cs = some v) :
    0 ≤ v ∧ v ≤ 999.99 := by
  unfold matchNumAt at h
  split at h
  · cases h
  · rename_i hne
    set ds := (matchDollar cs).dropWhile isSpaceChar with hds
    have hmem : ∀ c ∈ (takeUpTo 3 isDigitChar ds).2, ¬ c = ',' := by
      intro c hc
      exact hnc c (mem_matchDollar (mem_dropWhileSpaces (takeUpTo_snd_mem 3 isDigitChar ds c hc)))
    have hcg : commaGroups (takeUpTo 3 isDigitChar ds).2 = ([], (takeUpTo 3 isDigitChar ds).2) :=
      commaGroups_no_comma hmem
    rw [hcg] at h
    simp only [List.append_nil] at h
    have hlen : (takeUpTo 3 isDigitChar ds).1.length ≤ 3 := takeUpTo_fst_length 3 isDigitChar ds
    have hd : digitsToNat (takeUpTo 3 isDigitChar ds).1 ≤ 999 := digitsToNat_le_999 hlen
    have h9999 : (999.99 : ℚ) = (99999 : ℚ) / 100 := by norm_num
    split at h
    · rename_i f hf
      have hfle : f ≤ 99 := fracPart_le hf
      have hv : v = mkRat (100 * digitsToNat (takeUpTo 3 isDigitChar ds).1 + f) 100 :=
        (Option.some.inj h).symm
      rw [hv, Rat.mkRat_eq_div]
      constructor
      · positivity
      · rw [h9999]
        have hle : ((100 * digitsToNat (takeUpTo 3 isDigitChar ds).1 + f : ℕ) : ℚ) ≤ 99999 := by
          have : 100 * digitsToNat (takeUpTo 3 isDigitChar ds).1 + f ≤ 99999 := by omega
          exact_mod_cast this
        push_cast
        push_cast at hle
        linarith
    · have hv : v = ((digitsToNat (takeUpTo 3 isDigitChar ds).1 : ℕ) : ℚ) :=
        (Option.some.inj h).symm
      rw [hv]
      constructor
      · positivity
      · rw [h9999]
        have hle : ((digitsToNat (takeUpTo 3 isDigitChar ds).1 : ℕ) : ℚ) ≤ 999 := by
          exact_mod_cast hd
        linarith

lemma searchPrice_bounds :
    ∀ {cs : List Char} {v : ℚ}, (∀ c ∈ cs, ¬ c = ',') → searchPrice cs = some v →
      0 ≤ v ∧ v ≤ 999.99 := by
  intro cs
  induction cs with
  | nil => intro v _ hs; simp [searchPrice] at hs
  | cons c rest ih =>
    intro v h hs
    unfold searchPrice at hs
    cases hm : matchNumAt (c :: rest) with
    | some w =>
      rw [hm] at hs
      have hw := matchNumAt_bounds h hm
      simpa [← Option.some.inj hs] using hw
    | none =>
      rw [hm] at hs
      exact ih (fun x hx => h x (List.mem_cons_of_mem c hx)) hs

lemma extract_price_bounds {s : String} {v : ℚ} (h : extract_price s = some v) :
    0 ≤ v ∧ v ≤ 999.99 := by
  unfold extract_price at h
  split at h
  · cases h
  · refine searchPrice_bounds ?_ h
    intro c hc
    unfold stripCommas at hc
    have := List.mem_filter.mp hc
    simpa using this.2

/-! ### `max` / `min` of a nonempty list -/

instance : Std.Antisymm (fun x1 x2 : ℚ => x1 ≤ x2) := ⟨fun h1 h2 => le_antisymm h1 h2⟩

lemma listMax_eq_some_iff {l : List ℚ} {m : ℚ} :
    listMax l = some m ↔ m ∈ l ∧ ∀ b ∈ l, b ≤ m :=
  List.max?_eq_some_iff (fun x => le_refl x) (fun x y => max_choice x y)
    (fun _ _ _ => max_le_iff)

lemma listMin_eq_some_iff {l : List ℚ} {m : ℚ} :
    listMin l = some m ↔ m ∈ l ∧ ∀ b, b ∈ l → m ≤ b :=
  List.min?_eq_some_iff (fun x => le_refl x) (fun x y => min_choice x y)
    (fun _ _ _ => le_min_iff)

lemma listMax_eq_none_iff {l : List ℚ} : listMax l = none ↔ l = [] := by
  cases l <;> simp [listMax, List.max?]

lemma listMin_eq_none_iff {l : List ℚ} : listMin l = none ↔ l = [] := by
  cases l <;> simp [listMin, List.min?]

lemma listMax_perm {l l' : List ℚ} (h : l.Perm l') : listMax l = listMax l' := by
  cases hl : listMax l with
  | none =>
    have : l = [] := listMax_eq_none_iff.mp hl
    subst this
    have : l' = [] := h.symm.eq_nil
    subst this
    rfl
  | some m =>
    obtain ⟨hm, hub⟩ := listMax_eq_some_iff.mp hl
    exact (listMax_eq_some_iff.mpr ⟨h.subset hm, fun b hb => hub b (h.symm.subset hb)⟩).symm

lemma listMin_perm {l l' : List ℚ} (h : l.Perm l') : listMin l = listMin l' := by
  cases hl : listMin l with
  | none =>
    have : l = [] := listMin_eq_none_iff.mp hl
    subst this
    have : l' = [] := h.symm.eq_nil
    subst this
    rfl
  | some m =>
    obtain ⟨hm, hlb⟩ := listMin_eq_some_iff.mp hl
    exact (listMin_eq_some_iff.mpr ⟨h.subset hm, fun b hb => hlb b (h.symm.subset hb)⟩).symm

/-! ### Characterizations of price collection and fragment extraction -/

/-- What one price element contributes: its parsed price when that price
is truthy, nothing otherwise. -/
def priceStep (e : Element) : Option ℚ :=
  match extract_price e.text with
  | some p => if p = 0 then none else some p
  | none => none

lemma collectPrices_aux :
    ∀ (l : List Element) (acc : List ℚ),
      l.foldl (fun acc e =>
        match extract_price e.text with
        | some p => if p = 0 then acc else acc ++ [p]
        | none => acc) acc = acc ++ l.filterMap priceStep := by
  intro l
  induction l with
  | nil => intro acc; simp
  | cons e es ih =>
    intro acc
    rw [List.foldl_cons, List.filterMap_cons]
    cases hp : extract_price e.text with
    | none =>
      have hps : priceStep e = none := by simp [priceStep, hp]
      simp only [hp, hps]
      rw [ih]
    | some p =>
      by_cases h0 : p = 0
      · have hps : priceStep e = none := by simp [priceStep, hp, h0]
        simp only [hp, hps, if_pos h0]
        rw [ih]
      · have hps : priceStep e = some p := by simp [priceStep, hp, h0]
        simp only [hp, hps, if_neg h0]
        rw [ih]
        simp

lemma collectPrices_eq (frag : Fragment) :
    collectPrices frag = (frag.elems.filter isPriceElem).filterMap priceStep := by
  unfold collectPrices
  simpa using collectPrices_aux (frag.elems.filter isPriceElem) []

lemma collectPrices_nonneg (frag : Fragment) : ∀ p ∈ collectPrices frag, 0 ≤ p := by
  intro p hp
  rw [collectPrices_eq] at hp
  obtain ⟨e, _, hpe⟩ := List.mem_filterMap.mp hp
  unfold priceStep at hpe
  cases hx : extract_price e.text with
  | none => rw [hx] at hpe; cases hpe
  | some q =>
    rw [hx] at hpe
    have hpe' : (if q = 0 then none else some q) = some p := hpe
    by_cases h0 : q = 0
    · rw [if_pos h0] at hpe'; cases hpe'
    · rw [if_neg h0] at hpe'
      have : q = p := Option.some.inj hpe'
      subst this
      exact (extract_price_bounds hx).1

lemma extractFragment_eq_some {b c : String} {frag : Fragment} {r : ProductRecord}
    (h : extractFragment b c frag = some r) :
    ∃ e : Element, findNameElem frag = some e ∧ ¬ collectPrices frag = [] ∧
      r = ⟨e.text, b, c, listMax (collectPrices frag),
        if 1 < (collectPrices frag).length then listMin (collectPrices frag) else none⟩ := by
  unfold extractFragment at h
  split at h
  · cases h
  · rename_i e heq
    split at h
    · cases h
    · rename_i hne
      exact ⟨e, heq, by simpa [List.isEmpty_iff] using hne, (Option.some.inj h).symm⟩

lemma jsonToRecord_encode (r : ProductRecord) : jsonToRecord (recordToJson r) = some r := by
  obtain ⟨p, b, c, m, s⟩ := r
  cases m <;> cases s <;> rfl

/-! ### Concrete fragments used by witnesses and counterexamples -/

/-- A listing with one name element and two price elements showing the
identical price. -/
def fragDupPrice : Fragment :=
  ⟨[⟨"a", "product-title", "Model X"⟩,
    ⟨"span", "price", "$99.99"⟩, ⟨"span", "price", "$99.99"⟩]⟩

/-- A listing with exactly one parseable price. -/
def fragOnePrice : Fragment :=
  ⟨[⟨"a", "product-title", "Model Y"⟩, ⟨"span", "price", "$899.00"⟩]⟩

/-- A listing showing `$129.99` before `$99.99`. -/
def fragTwoA : Fragment :=
  ⟨[⟨"a", "product-title", "Model Z"⟩,
    ⟨"span", "price", "$129.99"⟩, ⟨"span", "price", "$99.99"⟩]⟩

/-- The same listing with the two price elements in the other document
order. -/
def fragTwoB : Fragment :=
  ⟨[⟨"a", "product-title", "Model Z"⟩,
    ⟨"span", "price", "$99.99"⟩, ⟨"span", "price", "$129.99"⟩]⟩

/-- A listing whose only price element parses to `0.0`. -/
def fragZeroPrice : Fragment :=
  ⟨[⟨"a", "product-name", "Freebie"⟩, ⟨"span", "price", "$0.00"⟩]⟩

/-! ### Claims -/

/-- C1: the claim (and §8 of the spec) requires
`extract_price("$1,299.99") = 1299.99`.  The code first removes every
comma, which makes the `(?:,\d{3})*` group of the pattern dead, and the
integer part `\d{1,3}` then matches only the first three digits: the
result is `129.0`.  The comma-free example `"899"` behaves as claimed. -/
theorem extract_price_comma_truncation :
    extract_price "$1,299.99" = some 129 ∧ extract_price "899" = some 899 := by
  constructor <;> decide

/-- C2 counterexample: a fragment whose two price elements both parse to
`99.99` yields one distinct collected price, yet the record's sale price
is present — presence is decided by `len(prices) > 1`, not by the number
of distinct values. -/
theorem sale_price_distinct_counterexample :
    (collectPrices fragDupPrice).dedup = [(99.99 : ℚ)] ∧
    extractFragment "Bowflex" "Treadmills" fragDupPrice =
      some ⟨"Model X", "Bowflex", "Treadmills", some (99.99 : ℚ), some (99.99 : ℚ)⟩ := by
  have hq : (99.99 : ℚ) = mkRat 9999 100 := by norm_num [Rat.mkRat_eq_div]
  rw [hq]
  constructor <;> decide

/-- C2 (amended): `sale_price` is present exactly when the collected price
list has more than one element, counting duplicates (`len(prices) > 1`);
when exactly one price was collected, `sale_price` is absent and `msrp`
equals that price. -/
theorem sale_price_presence (b c : String) (frag : Fragment) (r : ProductRecord)
    (h : extractFragment b c frag = some r) :
    (¬ r.salePrice = none ↔ 1 < (collectPrices frag).length) ∧
    ∀ p : ℚ, collectPrices frag = [p] → r.salePrice = none ∧ r.msrp = some p := by
  obtain ⟨e, hn, hne, hr⟩ := extractFragment_eq_some h
  subst hr
  constructor
  · by_cases hlen : 1 < (collectPrices frag).length
    · have hmin : ¬ listMin (collectPrices frag) = none := by
        intro hm; exact hne (listMin_eq_none_iff.mp hm)
      simp only [if_pos hlen]
      simp [hmin, hlen]
    · simp only [if_neg hlen]
      simp [hlen]
  · intro p hp
    have hlen : ¬ 1 < (collectPrices frag).length := by rw [hp]; simp
    constructor
    · show (if 1 < (collectPrices frag).length then listMin (collectPrices frag) else none) = none
      rw [if_neg hlen]
    · show listMax (collectPrices frag) = some p
      rw [hp]
      rfl

/-- Witness for C2 at the single-price fragment `fragOnePrice`. -/
theorem sale_price_presence_witness :
    (¬ (⟨"Model Y", "Bowflex", "Treadmills", some 899, none⟩ : ProductRecord).salePrice = none ↔
        1 < (collectPrices fragOnePrice).length) ∧
    ∀ p : ℚ, collectPrices fragOnePrice = [p] →
      (⟨"Model Y", "Bowflex", "Treadmills", some 899, none⟩ : ProductRecord).salePrice = none ∧
      (⟨"Model Y", "Bowflex", "Treadmills", some 899, none⟩ : ProductRecord).msrp = some p :=
  sale_price_presence "Bowflex" "Treadmills" fragOnePrice
    ⟨"Model Y", "Bowflex", "Treadmills", some 899, none⟩ (by decide)

/-- C3: a fragment whose collected prices are `129.99` and `99.99`, in
either document order, yields `msrp = 129.99` and `sale_price = 99.99`:
`msrp` is the maximum and `sale_price` the minimum of the collected
prices, invariant under permutation of the collection order. -/
theorem msrp_max_sale_price_min (b c b' c' : String) (frag frag' : Fragment)
    (r r' : ProductRecord)
    (h : extractFragment b c frag = some r)
    (h' : extractFragment b' c' frag' = some r')
    (hperm : (collectPrices frag).Perm (collectPrices frag'))
    (hp : collectPrices frag = [(129.99 : ℚ), 99.99] ∨
      collectPrices frag = [(99.99 : ℚ), 129.99]) :
    (r.msrp = some 129.99 ∧ r.salePrice = some 99.99) ∧
    (r'.msrp = some 129.99 ∧ r'.salePrice = some 99.99) := by
  obtain ⟨e, hn, hne, hr⟩ := extractFragment_eq_some h
  obtain ⟨e', hn', hne', hr'⟩ := extractFragment_eq_some h'
  subst hr
  subst hr'
  have hq : (99.99 : ℚ) ≤ 129.99 := by norm_num
  have hmaxp := listMax_perm hperm
  have hminp := listMin_perm hperm
  have hlenp := hperm.length_eq
  have key : listMax (collectPrices frag) = some 129.99 ∧
      listMin (collectPrices frag) = some 99.99 ∧
      1 < (collectPrices frag).length := by
    rcases hp with hp | hp <;> rw [hp]
    · refine ⟨?_, ?_, by simp⟩
      · show some (max (129.99 : ℚ) 99.99) = some 129.99
        rw [max_eq_left hq]
      · show some (min (129.99 : ℚ) 99.99) = some 99.99
        rw [min_eq_right hq]
    · refine ⟨?_, ?_, by simp⟩
      · show some (max (99.99 : ℚ) 129.99) = some 129.99
        rw [max_eq_right hq]
      · show some (min (99.99 : ℚ) 129.99) = some 99.99
        rw [min_eq_left hq]
  obtain ⟨hmax, hmin, hlen⟩ := key
  have hlen' : 1 < (collectPrices frag').length := hlenp ▸ hlen
  refine ⟨⟨hmax, ?_⟩, ⟨?_, ?_⟩⟩
  · show (if 1 < (collectPrices frag).length then listMin (collectPrices frag) else none) =
      some 99.99
    rw [if_pos hlen, hmin]
  · show listMax (collectPrices frag') = some 129.99
    rw [← hmaxp, hmax]
  · show (if 1 < (collectPrices frag').length then listMin (collectPrices frag') else none) =
      some 99.99
    rw [if_pos hlen', ← hminp, hmin]

/-- Witness for C3 at the two orderings `fragTwoA` / `fragTwoB`. -/
theorem msrp_max_sale_price_min_witness :
    ((⟨"Model Z", "Bowflex", "Treadmills", some (mkRat 12999 100), some (mkRat 9999 100)⟩ :
        ProductRecord).msrp = some (129.99 : ℚ) ∧
     (⟨"Model Z", "Bowflex", "Treadmills", some (mkRat 12999 100), some (mkRat 9999 100)⟩ :
        ProductRecord).salePrice = some (99.99 : ℚ)) ∧
    ((⟨"Model Z", "Bowflex", "Treadmills", some (mkRat 12999 100), some (mkRat 9999 100)⟩ :
        ProductRecord).msrp = some (129.99 : ℚ) ∧
     (⟨"Model Z", "Bowflex", "Treadmills", some (mkRat 12999 100), some (mkRat 9999 100)⟩ :
        ProductRecord).salePrice = some (99.99 : ℚ)) :=
  msrp_max_sale_price_min "Bowflex" "Treadmills" "Bowflex" "Treadmills" fragTwoA fragTwoB
    ⟨"Model Z", "Bowflex", "Treadmills", some (mkRat 12999 100), some (mkRat 9999 100)⟩
    ⟨"Model Z", "Bowflex", "Treadmills", some (mkRat 12999 100), some (mkRat 9999 100)⟩
    (by decide) (by decide)
    (by
      have hA : collectPrices fragTwoA = [mkRat 12999 100, mkRat 9999 100] := by decide
      have hB : collectPrices fragTwoB = [mkRat 9999 100, mkRat 12999 100] := by decide
      rw [hA, hB]
      exact List.Perm.swap (mkRat 9999 100) (mkRat 12999 100) [])
    (Or.inl (by
      have h1 : (129.99 : ℚ) = mkRat 12999 100 := by norm_num [Rat.mkRat_eq_div]
      have h2 : (99.99 : ℚ) = mkRat 9999 100 := by norm_num [Rat.mkRat_eq_div]
      rw [h1, h2]
      decide))

/-- C4 counterexample: the single price-classed element of
`fragZeroPrice` parses successfully to `0`, yet the collected price list
is empty — the loop's truthiness check `if price:` drops a parsed price
of `0.0` instead of appending it. -/
theorem zero_price_dropped_counterexample :
    extract_price "$0.00" = some 0 ∧
    (fragZeroPrice.elems.filter isPriceElem).length = 1 ∧
    collectPrices fragZeroPrice = [] := by
  refine ⟨by decide, by decide, by decide⟩

/-- C4 (amended): price collection visits exactly the price-classed
elements in document order, runs each text through `extract_price`, and
appends every successfully parsed price that is nonzero; a price parsing
to `0` is dropped by the `if price:` truthiness test. -/
theorem collect_prices_document_order (frag : Fragment) :
    collectPrices frag = (frag.elems.filter isPriceElem).filterMap priceStep ∧
    ∀ e ∈ frag.elems.filter isPriceElem, ∀ p : ℚ,
      extract_price e.text = some p → ¬ p = 0 → p ∈ collectPrices frag := by
  refine ⟨collectPrices_eq frag, ?_⟩
  intro e he p hp h0
  rw [collectPrices_eq]
  exact List.mem_filterMap.mpr ⟨e, he, by simp [priceStep, hp, h0]⟩

/-- C5: in every record produced by the fragment extractor, `msrp` and
`sale_price` are, when present, non-negative (they are rationals, hence
finite), and a present `sale_price` never exceeds `msrp`. -/
theorem record_price_invariants (b c : String) (frag : Fragment) (r : ProductRecord)
    (h : extractFragment b c frag = some r) :
    (∀ m : ℚ, r.msrp = some m → 0 ≤ m) ∧
    (∀ s : ℚ, r.salePrice = some s → 0 ≤ s) ∧
    (∀ m s : ℚ, r.msrp = some m → r.salePrice = some s → s ≤ m) := by
  obtain ⟨e, hn, hne, hr⟩ := extractFragment_eq_some h
  subst hr
  have hpos := collectPrices_nonneg frag
  refine ⟨?_, ?_, ?_⟩
  · intro m hm
    have hm' : listMax (collectPrices frag) = some m := hm
    exact hpos m (listMax_eq_some_iff.mp hm').1
  · intro s hs
    have hs' : (if 1 < (collectPrices frag).length then listMin (collectPrices frag) else none) =
      some s := hs
    by_cases hlen : 1 < (collectPrices frag).length
    · rw [if_pos hlen] at hs'
      exact hpos s (listMin_eq_some_iff.mp hs').1
    · rw [if_neg hlen] at hs'
      cases hs'
  · intro m s hm hs
    have hm' : listMax (collectPrices frag) = some m := hm
    have hs' : (if 1 < (collectPrices frag).length then listMin (collectPrices frag) else none) =
      some s := hs
    by_cases hlen : 1 < (collectPrices frag).length
    · rw [if_pos hlen] at hs'
      exact (listMax_eq_some_iff.mp hm').2 s (listMin_eq_some_iff.mp hs').1
    · rw [if_neg hlen] at hs'
      cases hs'

/-- Witness for C5 at the two-price fragment `fragTwoA`. -/
theorem record_price_invariants_witness :
    (∀ m : ℚ, (⟨"Model Z", "Bowflex", "Treadmills", some (mkRat 12999 100),
        some (mkRat 9999 100)⟩ : ProductRecord).msrp = some m → 0 ≤ m) ∧
    (∀ s : ℚ, (⟨"Model Z", "Bowflex", "Treadmills", some (mkRat 12999 100),
        some (mkRat 9999 100)⟩ : ProductRecord).salePrice = some s → 0 ≤ s) ∧
    (∀ m s : ℚ, (⟨"Model Z", "Bowflex", "Treadmills", some (mkRat 12999 100),
        some (mkRat 9999 100)⟩ : ProductRecord).msrp = some m →
      (⟨"Model Z", "Bowflex", "Treadmills", some (mkRat 12999 100),
        some (mkRat 9999 100)⟩ : ProductRecord).salePrice = some s → s ≤ m) :=
  record_price_invariants "Bowflex" "Treadmills" fragTwoA
    ⟨"Model Z", "Bowflex", "Treadmills", some (mkRat 12999 100), some (mkRat 9999 100)⟩
    (by decide)

/-- C6: a fragment with neither a pattern-matching name element nor any
fallback link, or with an empty collected price list, yields no record. -/
theorem no_record_when_nameless_or_priceless (b c : String) (frag : Fragment)
    (h : (frag.elems.find? isNameElem = none ∧
        frag.elems.find? (fun e => e.tag == "a") = none) ∨
      collectPrices frag = []) :
    extractFragment b c frag = none := by
  rcases h with ⟨h1, h2⟩ | h
  · unfold extractFragment findNameElem
    rw [h1, h2]
  · unfold extractFragment
    cases hn : findNameElem frag with
    | none => rfl
    | some e =>
      show (if (collectPrices frag).isEmpty then none
        else some (⟨e.text, b, c, listMax (collectPrices frag),
          if 1 < (collectPrices frag).length then listMin (collectPrices frag) else none⟩ :
            ProductRecord)) = none
      rw [h]
      rfl

/-- Witness for C6 at the empty fragment. -/
theorem no_record_witness :
    extractFragment "Bowflex" "Treadmills" (Fragment.mk []) = none :=
  no_record_when_nameless_or_priceless "Bowflex" "Treadmills" (Fragment.mk [])
    (Or.inl ⟨rfl, rfl⟩)

/-- C7: an exception raised while extracting one fragment is absorbed at
the per-fragment level: the fragment contributes nothing, every other
fragment of the page is still processed, and the (total) page loop lets
no exception escape. -/
theorem fragment_exception_isolated (ext : Fragment → Except String (Option ProductRecord))
    (fs1 fs2 : List Fragment) (f : Fragment) (msg : String)
    (h : ext f = Except.error msg) :
    processFragments ext (fs1 ++ f :: fs2) =
      processFragments ext fs1 ++ processFragments ext fs2 := by
  induction fs1 with
  | nil => simp [processFragments, h]
  | cons g gs ih =>
    simp only [List.cons_append, processFragments, List.append_eq, ih, List.append_assoc]

/-- Witness for C7 with an extractor that raises on the given fragment. -/
theorem fragment_exception_isolated_witness :
    processFragments (fun _ => Except.error "boom") ([] ++ Fragment.mk [] :: [fragOnePrice]) =
      processFragments (fun _ => Except.error "boom") [] ++
      processFragments (fun _ => Except.error "boom") [fragOnePrice] :=
  fragment_exception_isolated (fun _ => Except.error "boom") [] [fragOnePrice]
    (Fragment.mk []) "boom" rfl

/-- C8: a category whose fetch returns `none` is skipped and the
retailer's remaining categories still contribute; and `run` always
contains the Horizon records between the Bowflex and Schwinn records,
whatever other fetches fail. -/
theorem fetch_failure_skips_category (b : String) (fetch : String → Option Page)
    (cs1 cs2 : List (String × String)) (cat url : String)
    (h : fetch url = none) :
    scrapeRetailer b fetch (cs1 ++ (cat, url) :: cs2) =
      scrapeRetailer b fetch cs1 ++ scrapeRetailer b fetch cs2 ∧
    ∃ pre post : List ProductRecord,
      run fetch = pre ++ scrapeRetailer "Horizon Fitness" fetch horizonCategoryUrls ++ post := by
  constructor
  · induction cs1 with
    | nil => simp [scrapeRetailer, h]
    | cons cu rest ih =>
      obtain ⟨c0, u0⟩ := cu
      simp only [List.cons_append, scrapeRetailer, List.append_eq, ih, List.append_assoc]
  · exact ⟨scrapeRetailer "Bowflex" fetch bowflexCategoryUrls,
      scrapeRetailer "Schwinn" fetch schwinnCategoryUrls,
      by rw [run, List.append_assoc]⟩

/-- Witness for C8 with a fetcher that always fails. -/
theorem fetch_failure_skips_category_witness :
    scrapeRetailer "Bowflex" (fun _ => none)
        ([] ++ ("Treadmills", "https://www.bowflex.com/treadmills/") :: []) =
      scrapeRetailer "Bowflex" (fun _ => none) [] ++
        scrapeRetailer "Bowflex" (fun _ => none) [] ∧
    ∃ pre post : List ProductRecord,
      run (fun _ => none) =
        pre ++ scrapeRetailer "Horizon Fitness" (fun _ => none) horizonCategoryUrls ++ post :=
  fetch_failure_skips_category "Bowflex" (fun _ => none) [] []
    "Treadmills" "https://www.bowflex.com/treadmills/" rfl

/-- C9: serializing a product collection with `save_to_json` and decoding
the result as `load_from_file` does in sample mode reproduces the same
collection, with `null` exactly where optional fields were absent. -/
theorem save_load_round_trip (ps : List ProductRecord) :
    load_from_file (save_to_json ps) = some ps := by
  have key : decodeAll (ps.map recordToJson) = some ps := by
    induction ps with
    | nil => rfl
    | cons r rs ih =>
      rw [List.map_cons]
      unfold decodeAll
      rw [jsonToRecord_encode, ih]
  exact key

/-- C10: `extract_price` returns nothing or a value in `[0, 999.99]`:
with the commas removed before matching, the integer part of the match is
at most three digits. -/
theorem extract_price_range (s : String) (v : ℚ) (h : extract_price s = some v) :
    0 ≤ v ∧ v ≤ 999.99 :=
  extract_price_bounds h

/-- Witness for C10 at the input `"899"`. -/
theorem extract_price_range_witness :
    extract_price "899" = some 899 ∧ 0 ≤ (899 : ℚ) ∧ (899 : ℚ) ≤ 999.99 :=
  ⟨by decide, (extract_price_range "899" 899 (by decide)).1,
    (extract_price_range "899" 899 (by decide)).2⟩
